import Mathlib

/-!
Verification of the proportion confidence-interval estimators of
`CI-Proportions-Wald-vs-Wilsons.ipynb`.

The implementation cell of the notebook is straight-line Python:

  n = 30; x = 1; p_hat = x / n
  conf_level = 0.95
  z = norm.ppf(1 - (1 - conf_level) / 2)
  wald_se = np.sqrt(p_hat * (1 - p_hat) / n)
  wald_lower = p_hat - z * wald_se
  wald_upper = p_hat + z * wald_se
  denominator = 1 + z**2 / n
  centre_adj = p_hat + z**2 / (2 * n)
  adj_std_dev = np.sqrt((p_hat * (1 - p_hat) + z**2 / (4 * n)) / n)
  wilson_lower = (centre_adj - z * adj_std_dev) / denominator
  wilson_upper = (centre_adj + z * adj_std_dev) / denominator

We embed the cell as functions of its inputs `n` (trials), `x` (successes)
— Python integers, modelled as `ℤ` — and of the critical value `z : ℝ`.
The confidence level enters the computation only through
`z = norm.ppf(1 - (1 - conf_level) / 2) = Φ⁻¹((1 + conf_level)/2)`, a call
into scipy, which is not code of this repository; since `Φ⁻¹` has no closed
form, each theorem is stated over `z` directly, with the hypothesis on `z`
that the corresponding confidence levels induce (for `conf_level ∈ (0,1)`,
`(1 + conf_level)/2 ∈ (1/2,1)`, hence `z > 0`; for `conf_level = 0.95`,
`z = Φ⁻¹(0.975) ∈ [1.9599, 1.96]`).  Python float arithmetic is modelled
by exact real arithmetic, as the spec's tolerances intend.
-/

namespace CIProp

/-- Sample proportion, from the cell: `p_hat = x / n` (Python true division
of the integers `x` and `n`). -/
noncomputable def p_hat (n x : ℤ) : ℝ := (x : ℝ) / (n : ℝ)

/-- From the cell: `wald_se = np.sqrt(p_hat * (1 - p_hat) / n)`. -/
noncomputable def wald_se (n x : ℤ) : ℝ :=
  Real.sqrt (p_hat n x * (1 - p_hat n x) / (n : ℝ))

/-- From the cell: `wald_lower = p_hat - z * wald_se`. -/
noncomputable def wald_lower (n x : ℤ) (z : ℝ) : ℝ := p_hat n x - z * wald_se n x

/-- From the cell: `wald_upper = p_hat + z * wald_se`. -/
noncomputable def wald_upper (n x : ℤ) (z : ℝ) : ℝ := p_hat n x + z * wald_se n x

/-- From the cell: `denominator = 1 + z**2 / n`. -/
noncomputable def denominator (n : ℤ) (z : ℝ) : ℝ := 1 + z ^ 2 / (n : ℝ)

/-- From the cell: `centre_adj = p_hat + z**2 / (2 * n)`. -/
noncomputable def centre_adj (n x : ℤ) (z : ℝ) : ℝ :=
  p_hat n x + z ^ 2 / (2 * (n : ℝ))

/-- From the cell: `adj_std_dev = np.sqrt((p_hat * (1 - p_hat) + z**2 / (4 * n)) / n)`. -/
noncomputable def adj_std_dev (n x : ℤ) (z : ℝ) : ℝ :=
  Real.sqrt ((p_hat n x * (1 - p_hat n x) + z ^ 2 / (4 * (n : ℝ))) / (n : ℝ))

/-- From the cell: `wilson_lower = (centre_adj - z * adj_std_dev) / denominator`. -/
noncomputable def wilson_lower (n x : ℤ) (z : ℝ) : ℝ :=
  (centre_adj n x z - z * adj_std_dev n x z) / denominator n z

/-- From the cell: `wilson_upper = (centre_adj + z * adj_std_dev) / denominator`. -/
noncomputable def wilson_upper (n x : ℤ) (z : ℝ) : ℝ :=
  (centre_adj n x z + z * adj_std_dev n x z) / denominator n z

/-- A valid Sample in the sense of the spec's data model:
trials a positive integer, successes an integer in `[0, trials]`. -/
def ValidSample (n x : ℤ) : Prop := 0 < n ∧ 0 ≤ x ∧ x ≤ n

/-- Width (upper minus lower) of the Wald interval. -/
noncomputable def wald_width (n x : ℤ) (z : ℝ) : ℝ :=
  wald_upper n x z - wald_lower n x z

/-- Width (upper minus lower) of the Wilson interval. -/
noncomputable def wilson_width (n x : ℤ) (z : ℝ) : ℝ :=
  wilson_upper n x z - wilson_lower n x z

/-- The one exception Python can raise while running the implementation cell:
`x / n` raises `ZeroDivisionError` when `n = 0`.  (The cell contains no
validation code and no `InvalidArgument` condition; `np.sqrt` of a negative
argument returns `nan` with a warning rather than raising.) -/
inductive PyError where
  | zeroDivisionError

/-- The implementation cell viewed as a function of its inputs.  Python
evaluates `p_hat = x / n` first and raises `ZeroDivisionError` when `n = 0`;
otherwise the straight-line cell runs to completion and binds all four
interval bounds.  At every input used in the theorems below the arguments
of both square roots are nonnegative, so modelling `np.sqrt` by `Real.sqrt`
is faithful there. -/
noncomputable def runCell (n x : ℤ) (z : ℝ) : Except PyError ((ℝ × ℝ) × (ℝ × ℝ)) :=
  if n = 0 then Except.error PyError.zeroDivisionError
  else Except.ok ((wald_lower n x z, wald_upper n x z),
                  (wilson_lower n x z, wilson_upper n x z))

/-- The Wald interval written exactly as the specification states it:
`lower/upper = p̂ ∓ z·sqrt(p̂(1−p̂)/trials)` with `p̂ = successes/trials`.
This definition follows the spec's words, to be compared with the
definitions taken from the source. -/
noncomputable def waldIntervalSpec (n x : ℤ) (z : ℝ) : ℝ × ℝ :=
  ((x : ℝ) / (n : ℝ) -
      z * Real.sqrt ((x : ℝ) / (n : ℝ) * (1 - (x : ℝ) / (n : ℝ)) / (n : ℝ)),
   (x : ℝ) / (n : ℝ) +
      z * Real.sqrt ((x : ℝ) / (n : ℝ) * (1 - (x : ℝ) / (n : ℝ)) / (n : ℝ)))

/-- The Wilson interval written exactly as the specification states it:
`denom = 1 + z²/trials`, `centre = p̂ + z²/(2·trials)`,
`adj = sqrt((p̂(1−p̂) + z²/(4·trials))/trials)`,
`lower/upper = (centre ∓ z·adj) / denom`.  This definition follows the
spec's words, to be compared with the definitions taken from the source. -/
noncomputable def wilsonIntervalSpec (n x : ℤ) (z : ℝ) : ℝ × ℝ :=
  let ph : ℝ := (x : ℝ) / (n : ℝ)
  let denom : ℝ := 1 + z ^ 2 / (n : ℝ)
  let centre : ℝ := ph + z ^ 2 / (2 * (n : ℝ))
  let adj : ℝ := Real.sqrt ((ph * (1 - ph) + z ^ 2 / (4 * (n : ℝ))) / (n : ℝ))
  ((centre - z * adj) / denom, (centre + z * adj) / denom)

/- ### Helper lemmas -/

lemma cast_n_pos {n : ℤ} (hn : 0 < n) : (0 : ℝ) < (n : ℝ) := by exact_mod_cast hn

lemma p_hat_nonneg {n x : ℤ} (hn : 0 < n) (hx0 : 0 ≤ x) : 0 ≤ p_hat n x :=
  div_nonneg (by exact_mod_cast hx0) (le_of_lt (cast_n_pos hn))

lemma p_hat_le_one {n x : ℤ} (hn : 0 < n) (hxn : x ≤ n) : p_hat n x ≤ 1 :=
  (div_le_one (cast_n_pos hn)).mpr (by exact_mod_cast hxn)

lemma denominator_pos {n : ℤ} (z : ℝ) (hn : 0 < n) : 0 < denominator n z := by
  have hN := cast_n_pos hn
  have h1 : 0 ≤ z ^ 2 / (n : ℝ) := div_nonneg (sq_nonneg z) hN.le
  unfold denominator
  linarith

lemma wald_se_nonneg (n x : ℤ) : 0 ≤ wald_se n x := Real.sqrt_nonneg _

lemma adj_nonneg (n x : ℤ) (z : ℝ) : 0 ≤ adj_std_dev n x z := Real.sqrt_nonneg _

lemma adj_arg_nonneg {n x : ℤ} (z : ℝ) (hn : 0 < n) (hx0 : 0 ≤ x) (hxn : x ≤ n) :
    0 ≤ (p_hat n x * (1 - p_hat n x) + z ^ 2 / (4 * (n : ℝ))) / (n : ℝ) := by
  have hN := cast_n_pos hn
  have h0 := p_hat_nonneg hn hx0
  have h1 := p_hat_le_one hn hxn
  have ha : 0 ≤ p_hat n x * (1 - p_hat n x) := mul_nonneg h0 (by linarith)
  have hb : 0 ≤ z ^ 2 / (4 * (n : ℝ)) := div_nonneg (sq_nonneg z) (by linarith)
  exact div_nonneg (by linarith) hN.le

lemma adj_sq {n x : ℤ} (z : ℝ) (hn : 0 < n) (hx0 : 0 ≤ x) (hxn : x ≤ n) :
    adj_std_dev n x z ^ 2 =
      (p_hat n x * (1 - p_hat n x) + z ^ 2 / (4 * (n : ℝ))) / (n : ℝ) := by
  unfold adj_std_dev
  exact Real.sq_sqrt (adj_arg_nonneg z hn hx0 hxn)

lemma centre_adj_nonneg {n x : ℤ} (z : ℝ) (hn : 0 < n) (hx0 : 0 ≤ x) :
    0 ≤ centre_adj n x z := by
  have hN := cast_n_pos hn
  have h0 := p_hat_nonneg hn hx0
  have hb : 0 ≤ z ^ 2 / (2 * (n : ℝ)) := div_nonneg (sq_nonneg z) (by linarith)
  unfold centre_adj
  linarith

lemma z_adj_le_centre {n x : ℤ} (z : ℝ) (hn : 0 < n) (hx0 : 0 ≤ x) (hxn : x ≤ n) :
    z * adj_std_dev n x z ≤ centre_adj n x z := by
  have hN := cast_n_pos hn
  have hNne : (n : ℝ) ≠ 0 := ne_of_gt hN
  have hA0 := adj_nonneg n x z
  have hA2 := adj_sq z hn hx0 hxn
  have hc := centre_adj_nonneg z hn hx0
  have expand : centre_adj n x z ^ 2 -
      z ^ 2 * ((p_hat n x * (1 - p_hat n x) + z ^ 2 / (4 * (n : ℝ))) / (n : ℝ)) =
      p_hat n x ^ 2 + p_hat n x ^ 2 * z ^ 2 / (n : ℝ) := by
    unfold centre_adj
    field_simp
    ring
  have hrhs : 0 ≤ p_hat n x ^ 2 + p_hat n x ^ 2 * z ^ 2 / (n : ℝ) :=
    add_nonneg (sq_nonneg _)
      (div_nonneg (mul_nonneg (sq_nonneg _) (sq_nonneg _)) hN.le)
  have hkey : (z * adj_std_dev n x z) ^ 2 ≤ centre_adj n x z ^ 2 := by
    have e : (z * adj_std_dev n x z) ^ 2 =
        z ^ 2 * ((p_hat n x * (1 - p_hat n x) + z ^ 2 / (4 * (n : ℝ))) / (n : ℝ)) := by
      rw [mul_pow, hA2]
    rw [e]; linarith
  nlinarith [hkey, hc, sq_nonneg (centre_adj n x z - z * adj_std_dev n x z),
    sq_nonneg (centre_adj n x z + z * adj_std_dev n x z)]

lemma z_adj_le_denom_sub_centre {n x : ℤ} (z : ℝ) (hn : 0 < n) (hx0 : 0 ≤ x)
    (hxn : x ≤ n) :
    z * adj_std_dev n x z ≤ denominator n z - centre_adj n x z := by
  have hN := cast_n_pos hn
  have hNne : (n : ℝ) ≠ 0 := ne_of_gt hN
  have hA0 := adj_nonneg n x z
  have hA2 := adj_sq z hn hx0 hxn
  have h1 := p_hat_le_one hn hxn
  have hq : 0 ≤ denominator n z - centre_adj n x z := by
    have hb : 0 ≤ z ^ 2 / (2 * (n : ℝ)) := div_nonneg (sq_nonneg z) (by linarith)
    have he : denominator n z - centre_adj n x z =
        (1 - p_hat n x) + z ^ 2 / (2 * (n : ℝ)) := by
      unfold denominator centre_adj
      field_simp
      ring
    rw [he]; linarith
  have expand : (denominator n z - centre_adj n x z) ^ 2 -
      z ^ 2 * ((p_hat n x * (1 - p_hat n x) + z ^ 2 / (4 * (n : ℝ))) / (n : ℝ)) =
      (1 - p_hat n x) ^ 2 + (1 - p_hat n x) ^ 2 * z ^ 2 / (n : ℝ) := by
    unfold denominator centre_adj
    field_simp
    ring
  have hrhs : 0 ≤ (1 - p_hat n x) ^ 2 + (1 - p_hat n x) ^ 2 * z ^ 2 / (n : ℝ) :=
    add_nonneg (sq_nonneg _)
      (div_nonneg (mul_nonneg (sq_nonneg _) (sq_nonneg _)) hN.le)
  have hkey : (z * adj_std_dev n x z) ^ 2 ≤ (denominator n z - centre_adj n x z) ^ 2 := by
    have e : (z * adj_std_dev n x z) ^ 2 =
        z ^ 2 * ((p_hat n x * (1 - p_hat n x) + z ^ 2 / (4 * (n : ℝ))) / (n : ℝ)) := by
      rw [mul_pow, hA2]
    rw [e]; linarith
  nlinarith [hkey, hq,
    sq_nonneg (denominator n z - centre_adj n x z - z * adj_std_dev n x z),
    sq_nonneg (denominator n z - centre_adj n x z + z * adj_std_dev n x z)]

lemma wilson_lower_nonneg {n x : ℤ} (z : ℝ) (hn : 0 < n) (hx0 : 0 ≤ x) (hxn : x ≤ n) :
    0 ≤ wilson_lower n x z := by
  unfold wilson_lower
  apply div_nonneg _ (denominator_pos z hn).le
  linarith [z_adj_le_centre z hn hx0 hxn]

lemma wilson_upper_le_one {n x : ℤ} (z : ℝ) (hn : 0 < n) (hx0 : 0 ≤ x) (hxn : x ≤ n) :
    wilson_upper n x z ≤ 1 := by
  unfold wilson_upper
  rw [div_le_one (denominator_pos z hn)]
  linarith [z_adj_le_denom_sub_centre z hn hx0 hxn]

/- ### Claim theorems -/

/-- C1: for every valid input (trials > 0, successes in [0, trials]; the
confidence level enters only through the critical value `z`, over which the
statement quantifies without restriction, so every confidence level in (0,1)
is covered), the Wilson estimator returns an interval whose lower bound is
≥ 0 and whose upper bound is ≤ 1. -/
theorem wilson_interval_in_unit_range (n x : ℤ) (z : ℝ) (h : ValidSample n x) :
    0 ≤ wilson_lower n x z ∧ wilson_upper n x z ≤ 1 :=
  ⟨wilson_lower_nonneg z h.1 h.2.1 h.2.2, wilson_upper_le_one z h.1 h.2.1 h.2.2⟩

theorem wilson_interval_in_unit_range_witness :
    ValidSample 30 1 ∧ (0 ≤ wilson_lower 30 1 1.96 ∧ wilson_upper 30 1 1.96 ≤ 1) :=
  ⟨⟨by norm_num, by norm_num, by norm_num⟩,
   wilson_interval_in_unit_range 30 1 1.96 ⟨by norm_num, by norm_num, by norm_num⟩⟩

/-- C3: for every valid input the Wald estimator returns exactly the pair
`(p̂ - z*sqrt(p̂(1-p̂)/trials), p̂ + z*sqrt(p̂(1-p̂)/trials))` of the spec,
with no clamping of either bound: the code's interval coincides with the
spec's unclamped formula definitionally. -/
theorem wald_matches_spec (n x : ℤ) (z : ℝ) (_h : ValidSample n x) :
    (wald_lower n x z, wald_upper n x z) = waldIntervalSpec n x z := rfl

theorem wald_matches_spec_witness :
    ValidSample 30 1 ∧
      (wald_lower 30 1 1.96, wald_upper 30 1 1.96) = waldIntervalSpec 30 1 1.96 :=
  ⟨⟨by norm_num, by norm_num, by norm_num⟩,
   wald_matches_spec 30 1 1.96 ⟨by norm_num, by norm_num, by norm_num⟩⟩

/-- C4: for every valid input the Wilson estimator returns exactly the pair
`((centre - z*adj)/denom, (centre + z*adj)/denom)` with `denom = 1 + z²/trials`,
`centre = p̂ + z²/(2*trials)`, `adj = sqrt((p̂(1-p̂) + z²/(4*trials))/trials)`:
the code's interval coincides with the spec's formula definitionally. -/
theorem wilson_matches_spec (n x : ℤ) (z : ℝ) (_h : ValidSample n x) :
    (wilson_lower n x z, wilson_upper n x z) = wilsonIntervalSpec n x z := rfl

theorem wilson_matches_spec_witness :
    ValidSample 30 1 ∧
      (wilson_lower 30 1 1.96, wilson_upper 30 1 1.96) = wilsonIntervalSpec 30 1 1.96 :=
  ⟨⟨by norm_num, by norm_num, by norm_num⟩,
   wilson_matches_spec 30 1 1.96 ⟨by norm_num, by norm_num, by norm_num⟩⟩

/-- C10: for every input the Wald interval is symmetric about the sample
proportion, `wald_lower + wald_upper = 2 * p̂` exactly; and the Wilson
interval does not share this property: at the concrete valid input
trials = 30, successes = 1, `z = 2` (the critical value of a confidence
level ≈ 0.9545 ∈ (0,1)), `wilson_lower + wilson_upper ≠ 2 * p̂`. -/
theorem wald_symmetric_wilson_not (n x : ℤ) (z : ℝ) :
    wald_lower n x z + wald_upper n x z = 2 * p_hat n x ∧
    wilson_lower 30 1 2 + wilson_upper 30 1 2 ≠ 2 * p_hat 30 1 := by
  constructor
  · unfold wald_lower wald_upper; ring
  · have hsum : wilson_lower 30 1 2 + wilson_upper 30 1 2 =
        2 * centre_adj 30 1 2 / denominator 30 2 := by
      unfold wilson_lower wilson_upper
      rw [div_add_div_same]
      congr 1
      ring
    have hc : centre_adj 30 1 2 = 1 / 10 := by
      unfold centre_adj p_hat; norm_num
    have hd : denominator 30 2 = 17 / 15 := by
      unfold denominator; norm_num
    have hp : p_hat 30 1 = 1 / 30 := by
      unfold p_hat; norm_num
    rw [hsum, hc, hd, hp]
    norm_num

/-- C2 counterexample: at the input trials = -30, successes = 0, `z = 2`
(trials ≤ 0, hence invalid, and the claim demands an InvalidArgument
failure there) the implementation cell runs to completion and returns a
complete pair of intervals — the Wald bounds are both 0 — instead of
failing: the cell contains no validation code at all. -/
theorem no_validation_counterexample :
    runCell (-30) 0 2 =
      Except.ok ((0, 0), (wilson_lower (-30) 0 2, wilson_upper (-30) 0 2)) := by
  have hp : p_hat (-30) 0 = 0 := by unfold p_hat; norm_num
  have hs : wald_se (-30) 0 = 0 := by
    unfold wald_se
    rw [hp]
    norm_num
  unfold runCell
  rw [if_neg (by norm_num)]
  unfold wald_lower wald_upper
  rw [hp, hs]
  norm_num

/-- C2 amended: the implementation cell performs no input validation and has
no InvalidArgument condition.  Its only failure mode is the Python
`ZeroDivisionError` raised by `x / n` when trials = 0; for every other
trials value — including the invalid trials < 0, successes outside
[0, trials] and any confidence level — it returns a complete pair of
intervals. -/
theorem cell_failure_modes (n x : ℤ) (z : ℝ) :
    (n = 0 → runCell n x z = Except.error PyError.zeroDivisionError) ∧
    (n ≠ 0 → runCell n x z =
      Except.ok ((wald_lower n x z, wald_upper n x z),
        (wilson_lower n x z, wilson_upper n x z))) := by
  constructor
  · intro h; simp [runCell, h]
  · intro h; simp [runCell, h]

theorem cell_failure_modes_witness :
    runCell 0 1 2 = Except.error PyError.zeroDivisionError ∧
    runCell 30 1 2 =
      Except.ok ((wald_lower 30 1 2, wald_upper 30 1 2),
        (wilson_lower 30 1 2, wilson_upper 30 1 2)) :=
  ⟨(cell_failure_modes 0 1 2).1 rfl, (cell_failure_modes 30 1 2).2 (by norm_num)⟩

/-- C6: on every valid input both estimators return an interval with
lower ≤ upper.  The critical value satisfies `z ≥ 0` for every confidence
level in (0,1), since `z = Φ⁻¹((1+conf)/2)` with `(1+conf)/2 > 1/2`. -/
theorem intervals_ordered (n x : ℤ) (z : ℝ) (h : ValidSample n x) (hz : 0 ≤ z) :
    wald_lower n x z ≤ wald_upper n x z ∧ wilson_lower n x z ≤ wilson_upper n x z := by
  constructor
  · have hse : 0 ≤ z * wald_se n x := mul_nonneg hz (wald_se_nonneg n x)
    unfold wald_lower wald_upper
    linarith
  · have hadj : 0 ≤ z * adj_std_dev n x z := mul_nonneg hz (adj_nonneg n x z)
    unfold wilson_lower wilson_upper
    rw [div_le_div_iff_of_pos_right (denominator_pos z h.1)]
    linarith

theorem intervals_ordered_witness :
    ValidSample 30 1 ∧ (0:ℝ) ≤ 1.96 ∧
      (wald_lower 30 1 1.96 ≤ wald_upper 30 1 1.96 ∧
       wilson_lower 30 1 1.96 ≤ wilson_upper 30 1 1.96) :=
  ⟨⟨by norm_num, by norm_num, by norm_num⟩, by norm_num,
   intervals_ordered 30 1 1.96 ⟨by norm_num, by norm_num, by norm_num⟩ (by norm_num)⟩

lemma wald_se_30_1 : wald_se 30 1 = Real.sqrt (29 / 27000) := by
  unfold wald_se p_hat
  norm_num

lemma wald_se_30_1_lb : (0.0327 : ℝ) ≤ wald_se 30 1 := by
  rw [wald_se_30_1]
  rw [Real.le_sqrt' (by norm_num)]
  norm_num

lemma wald_se_30_1_ub : wald_se 30 1 ≤ (0.0328 : ℝ) := by
  rw [wald_se_30_1]
  rw [Real.sqrt_le_left (by norm_num)]
  norm_num

/-- C7: there is a valid input — the notebook's own trials = 30,
successes = 1 with p̂ near 0 — on which the Wald interval falls outside
[0,1]: its lower bound is negative.  The hypothesis `1.9 ≤ z` holds for the
notebook's confidence level 0.95 (`z = Φ⁻¹(0.975) ≈ 1.96`) and for every
confidence level above ≈ 0.943; no clamping to [0,1] is applied. -/
theorem wald_outside_unit_range (z : ℝ) (hz : 1.9 ≤ z) :
    ValidSample 30 1 ∧ wald_lower 30 1 z < 0 := by
  refine ⟨⟨by norm_num, by norm_num, by norm_num⟩, ?_⟩
  have hp : p_hat 30 1 = 1 / 30 := by unfold p_hat; norm_num
  have hse := wald_se_30_1_lb
  have hmul : (1.9 : ℝ) * 0.0327 ≤ z * wald_se 30 1 :=
    mul_le_mul hz hse (by norm_num) (by linarith)
  unfold wald_lower
  rw [hp]
  linarith

theorem wald_outside_unit_range_witness :
    (1.9 : ℝ) ≤ 1.96 ∧ (ValidSample 30 1 ∧ wald_lower 30 1 1.96 < 0) :=
  ⟨by norm_num, wald_outside_unit_range 1.96 (by norm_num)⟩

/-- C8: for successes = 0 with trials > 0 the Wald standard-error term is
`sqrt(0) = 0`, so both Wald bounds equal 0, and the Wilson lower bound is
still ≥ 0 (for every critical value `z`, hence every valid confidence
level). -/
theorem zero_successes (n : ℤ) (z : ℝ) (hn : 0 < n) :
    wald_lower n 0 z = 0 ∧ wald_upper n 0 z = 0 ∧ 0 ≤ wilson_lower n 0 z := by
  have hp : p_hat n 0 = 0 := by unfold p_hat; norm_num
  have hs : wald_se n 0 = 0 := by
    unfold wald_se
    rw [hp]
    norm_num
  refine ⟨?_, ?_, ?_⟩
  · unfold wald_lower; rw [hp, hs]; ring
  · unfold wald_upper; rw [hp, hs]; ring
  · exact wilson_lower_nonneg z hn le_rfl hn.le

theorem zero_successes_witness :
    (0 : ℤ) < 30 ∧
      (wald_lower 30 0 1.96 = 0 ∧ wald_upper 30 0 1.96 = 0 ∧
        0 ≤ wilson_lower 30 0 1.96) :=
  ⟨by norm_num, zero_successes 30 1.96 (by norm_num)⟩

lemma adj_30_1_eq (z : ℝ) :
    adj_std_dev 30 1 z = Real.sqrt ((29 / 900 + z ^ 2 / 120) / 30) := by
  unfold adj_std_dev p_hat
  norm_num

lemma adj_30_1_lb (z : ℝ) (hz1 : 1.9599 ≤ z) :
    (0.046271 : ℝ) ≤ adj_std_dev 30 1 z := by
  rw [adj_30_1_eq]
  rw [Real.le_sqrt' (by norm_num)]
  have h := mul_le_mul hz1 hz1 (by norm_num) (by linarith)
  nlinarith [h]

lemma adj_30_1_ub (z : ℝ) (hz0 : 0 ≤ z) (hz2 : z ≤ 1.96) :
    adj_std_dev 30 1 z ≤ (0.046274 : ℝ) := by
  rw [adj_30_1_eq]
  rw [Real.sqrt_le_left (by norm_num)]
  have h := mul_le_mul hz2 hz2 hz0 (by norm_num)
  nlinarith [h]

/-- C5: for trials = 30, successes = 1 and confidence 0.95 the Wald interval
is (-0.0309, 0.0976) and the Wilson interval is (0.0059, 0.1667), each bound
within 1e-3.  The critical value of confidence 0.95 is
`z = Φ⁻¹(0.975) = 1.95996398…`; the hypothesis states the standard enclosure
`1.9599 ≤ z ≤ 1.96`, and the conclusion holds for every `z` in it. -/
theorem documented_example (z : ℝ) (hz1 : 1.9599 ≤ z) (hz2 : z ≤ 1.96) :
    |wald_lower 30 1 z - (-0.0309)| ≤ 1e-3 ∧
    |wald_upper 30 1 z - 0.0976| ≤ 1e-3 ∧
    |wilson_lower 30 1 z - 0.0059| ≤ 1e-3 ∧
    |wilson_upper 30 1 z - 0.1667| ≤ 1e-3 := by
  have hz0 : (0 : ℝ) ≤ z := by linarith
  have hp : p_hat 30 1 = 1 / 30 := by unfold p_hat; norm_num
  have hzs1 : (1.9599 : ℝ) * 0.0327 ≤ z * wald_se 30 1 :=
    mul_le_mul hz1 wald_se_30_1_lb (by norm_num) hz0
  have hzs2 : z * wald_se 30 1 ≤ (1.96 : ℝ) * 0.0328 :=
    mul_le_mul hz2 wald_se_30_1_ub (wald_se_nonneg 30 1) (by norm_num)
  have hzz1 : (1.9599 : ℝ) * 1.9599 ≤ z * z := mul_le_mul hz1 hz1 (by norm_num) hz0
  have hzz2 : z * z ≤ (1.96 : ℝ) * 1.96 := mul_le_mul hz2 hz2 hz0 (by norm_num)
  have hza1 : (1.9599 : ℝ) * 0.046271 ≤ z * adj_std_dev 30 1 z :=
    mul_le_mul hz1 (adj_30_1_lb z hz1) (by norm_num) hz0
  have hza2 : z * adj_std_dev 30 1 z ≤ (1.96 : ℝ) * 0.046274 :=
    mul_le_mul hz2 (adj_30_1_ub z hz0 hz2) (adj_nonneg 30 1 z) (by norm_num)
  have hc : centre_adj 30 1 z = 1 / 30 + z ^ 2 / 60 := by
    unfold centre_adj
    rw [hp]
    norm_num
  have hd : denominator 30 z = 1 + z ^ 2 / 30 := by
    unfold denominator
    norm_num
  have hdpos : (0 : ℝ) < 1 + z ^ 2 / 30 := by positivity
  refine ⟨?_, ?_, ?_, ?_⟩
  · unfold wald_lower
    rw [hp, abs_le]
    constructor <;> nlinarith
  · unfold wald_upper
    rw [hp, abs_le]
    constructor <;> nlinarith
  · unfold wilson_lower
    rw [hc, hd, abs_le]
    constructor
    · have h1 : (0.0049 : ℝ) ≤
          (1 / 30 + z ^ 2 / 60 - z * adj_std_dev 30 1 z) / (1 + z ^ 2 / 30) := by
        rw [le_div_iff₀ hdpos]
        nlinarith
      linarith
    · have h2 : (1 / 30 + z ^ 2 / 60 - z * adj_std_dev 30 1 z) / (1 + z ^ 2 / 30) ≤
          (0.0069 : ℝ) := by
        rw [div_le_iff₀ hdpos]
        nlinarith
      linarith
  · unfold wilson_upper
    rw [hc, hd, abs_le]
    constructor
    · have h1 : (0.1657 : ℝ) ≤
          (1 / 30 + z ^ 2 / 60 + z * adj_std_dev 30 1 z) / (1 + z ^ 2 / 30) := by
        rw [le_div_iff₀ hdpos]
        nlinarith
      linarith
    · have h2 : (1 / 30 + z ^ 2 / 60 + z * adj_std_dev 30 1 z) / (1 + z ^ 2 / 30) ≤
          (0.1677 : ℝ) := by
        rw [div_le_iff₀ hdpos]
        nlinarith
      linarith

theorem documented_example_witness :
    (1.9599 : ℝ) ≤ 1.96 ∧ (1.96 : ℝ) ≤ 1.96 ∧
      (|wald_lower 30 1 1.96 - (-0.0309)| ≤ 1e-3 ∧
       |wald_upper 30 1 1.96 - 0.0976| ≤ 1e-3 ∧
       |wilson_lower 30 1 1.96 - 0.0059| ≤ 1e-3 ∧
       |wilson_upper 30 1 1.96 - 0.1667| ≤ 1e-3) :=
  ⟨by norm_num, le_rfl, documented_example 1.96 (by norm_num) le_rfl⟩

lemma p_hat_prod_eq (n x : ℤ) (hn : (n : ℝ) ≠ 0) :
    p_hat n x * (1 - p_hat n x) = (x : ℝ) * ((n : ℝ) - (x : ℝ)) / (n : ℝ) ^ 2 := by
  unfold p_hat
  have h : (1 : ℝ) - (x : ℝ) / (n : ℝ) = ((n : ℝ) - (x : ℝ)) / (n : ℝ) := by
    field_simp
  rw [h, div_mul_div_comm, ← pow_two]

lemma p_hat_prod_le {n x y : ℤ} (hn : 0 < n) (hprod : x * (n - x) ≤ y * (n - y)) :
    p_hat n x * (1 - p_hat n x) ≤ p_hat n y * (1 - p_hat n y) := by
  have hN := cast_n_pos hn
  have hNne := ne_of_gt hN
  rw [p_hat_prod_eq n x hNne, p_hat_prod_eq n y hNne,
    div_le_div_iff_of_pos_right (pow_pos hN 2)]
  exact_mod_cast hprod

lemma p_hat_prod_lt {n x y : ℤ} (hn : 0 < n) (hprod : x * (n - x) < y * (n - y)) :
    p_hat n x * (1 - p_hat n x) < p_hat n y * (1 - p_hat n y) := by
  have hN := cast_n_pos hn
  have hNne := ne_of_gt hN
  rw [p_hat_prod_eq n x hNne, p_hat_prod_eq n y hNne,
    div_lt_div_iff_of_pos_right (pow_pos hN 2)]
  exact_mod_cast hprod

lemma int_prod_lt_left (n x y : ℤ) (hxy : x < y) (hyn : 2 * y ≤ n) :
    x * (n - x) < y * (n - y) := by
  nlinarith [mul_pos (by omega : (0 : ℤ) < y - x) (by omega : (0 : ℤ) < n - x - y)]

lemma int_prod_lt_right (n x y : ℤ) (hnx : n ≤ 2 * x) (hxy : x < y) :
    y * (n - y) < x * (n - x) := by
  nlinarith [mul_pos (by omega : (0 : ℤ) < y - x) (by omega : (0 : ℤ) < x + y - n)]

lemma int_prod_le_half (n x : ℤ) : x * (n - x) ≤ (n / 2) * (n - n / 2) := by
  rcases le_or_lt x (n / 2) with h | h
  · nlinarith [mul_nonneg (by omega : (0 : ℤ) ≤ n / 2 - x)
      (by omega : (0 : ℤ) ≤ n - n / 2 - x)]
  · nlinarith [mul_nonneg (by omega : (0 : ℤ) ≤ x - n / 2)
      (by omega : (0 : ℤ) ≤ x + n / 2 - n)]

lemma wald_se_le_se {n x y : ℤ} (hn : 0 < n) (hprod : x * (n - x) ≤ y * (n - y)) :
    wald_se n x ≤ wald_se n y := by
  unfold wald_se
  apply Real.sqrt_le_sqrt
  rw [div_le_div_iff_of_pos_right (cast_n_pos hn)]
  exact p_hat_prod_le hn hprod

lemma wald_se_lt_se {n x y : ℤ} (hn : 0 < n) (hx0 : 0 ≤ x) (hxn : x ≤ n)
    (hprod : x * (n - x) < y * (n - y)) : wald_se n x < wald_se n y := by
  unfold wald_se
  apply Real.sqrt_lt_sqrt
  · exact div_nonneg (mul_nonneg (p_hat_nonneg hn hx0)
      (by linarith [p_hat_le_one hn hxn])) (cast_n_pos hn).le
  · rw [div_lt_div_iff_of_pos_right (cast_n_pos hn)]
    exact p_hat_prod_lt hn hprod

lemma adj_le_adj {n x y : ℤ} (z : ℝ) (hn : 0 < n)
    (hprod : x * (n - x) ≤ y * (n - y)) :
    adj_std_dev n x z ≤ adj_std_dev n y z := by
  unfold adj_std_dev
  apply Real.sqrt_le_sqrt
  rw [div_le_div_iff_of_pos_right (cast_n_pos hn)]
  linarith [p_hat_prod_le hn hprod]

lemma adj_lt_adj {n x y : ℤ} (z : ℝ) (hn : 0 < n) (hx0 : 0 ≤ x) (hxn : x ≤ n)
    (hprod : x * (n - x) < y * (n - y)) :
    adj_std_dev n x z < adj_std_dev n y z := by
  unfold adj_std_dev
  apply Real.sqrt_lt_sqrt
  · exact adj_arg_nonneg z hn hx0 hxn
  · rw [div_lt_div_iff_of_pos_right (cast_n_pos hn)]
    linarith [p_hat_prod_lt hn hprod]

lemma wald_width_eq (n x : ℤ) (z : ℝ) : wald_width n x z = 2 * z * wald_se n x := by
  unfold wald_width wald_upper wald_lower
  ring

lemma wilson_width_eq (n x : ℤ) (z : ℝ) :
    wilson_width n x z = 2 * z * adj_std_dev n x z / denominator n z := by
  unfold wilson_width wilson_upper wilson_lower
  rw [div_sub_div_same]
  congr 1
  ring

/-- C9: for fixed trials `n` and fixed critical value `z > 0` (every
confidence level in (0,1) induces `z > 0`), as successes increase from 0 to
`n` both interval widths first increase then decrease, attaining their
maximum at successes `= n/2`, i.e. p̂ nearest 0.5: the widths are strictly
increasing while `2·successes ≤ n`, strictly decreasing after
`2·successes ≥ n`, and bounded by their value at `n/2`. -/
theorem interval_widths_unimodal (n x y : ℤ) (z : ℝ) (hz : 0 < z) (hn : 0 < n)
    (hx0 : 0 ≤ x) (hxn : x ≤ n) (hy0 : 0 ≤ y) (hyn : y ≤ n) :
    ((x < y ∧ 2 * y ≤ n) →
        wald_width n x z < wald_width n y z ∧
        wilson_width n x z < wilson_width n y z) ∧
    ((n ≤ 2 * x ∧ x < y) →
        wald_width n y z < wald_width n x z ∧
        wilson_width n y z < wilson_width n x z) ∧
    (wald_width n x z ≤ wald_width n (n / 2) z ∧
     wilson_width n x z ≤ wilson_width n (n / 2) z) := by
  have hNd := denominator_pos z hn
  have h2z : (0 : ℝ) < 2 * z := by linarith
  refine ⟨fun h => ?_, fun h => ?_, ?_⟩
  · have hprod := int_prod_lt_left n x y h.1 h.2
    constructor
    · rw [wald_width_eq, wald_width_eq]
      exact mul_lt_mul_of_pos_left (wald_se_lt_se hn hx0 hxn hprod) h2z
    · rw [wilson_width_eq, wilson_width_eq, div_lt_div_iff_of_pos_right hNd]
      exact mul_lt_mul_of_pos_left (adj_lt_adj z hn hx0 hxn hprod) h2z
  · have hprod := int_prod_lt_right n x y h.1 h.2
    constructor
    · rw [wald_width_eq, wald_width_eq]
      exact mul_lt_mul_of_pos_left (wald_se_lt_se hn hy0 hyn hprod) h2z
    · rw [wilson_width_eq, wilson_width_eq, div_lt_div_iff_of_pos_right hNd]
      exact mul_lt_mul_of_pos_left (adj_lt_adj z hn hy0 hyn hprod) h2z
  · have hprod := int_prod_le_half n x
    constructor
    · rw [wald_width_eq, wald_width_eq]
      exact mul_le_mul_of_nonneg_left (wald_se_le_se hn hprod) h2z.le
    · rw [wilson_width_eq, wilson_width_eq, div_le_div_iff_of_pos_right hNd]
      exact mul_le_mul_of_nonneg_left (adj_le_adj z hn hprod) h2z.le

theorem interval_widths_unimodal_witness :
    (0 : ℝ) < 1 ∧ (0 : ℤ) < 4 ∧
      (wald_width 4 1 1 < wald_width 4 2 1 ∧
       wilson_width 4 1 1 < wilson_width 4 2 1) :=
  ⟨one_pos, by norm_num,
    (interval_widths_unimodal 4 1 2 1 one_pos (by norm_num) (by norm_num)
      (by norm_num) (by norm_num) (by norm_num)).1 ⟨by norm_num, by norm_num⟩⟩

end CIProp
